import Mathlib

/-!
# Snake game state engine: a shallow embedding of `src/snake_game/logic.py`

This file embeds the pure state-transition core of the snake game
(`logic.py`) in Lean and proves the specified properties about it.

Modelling conventions:

* Python `Point`/`Direction` tuples of ints become `Int × Int`.
* Board dimensions are natural numbers (they are non-negative in every use;
  the construction guard rejects anything below 4 anyway).
* The injected random-choice source (`SupportsChoice`, duck-typed
  `choice(seq) -> element`) is embedded as an index stream `RngS = Nat → Nat`:
  each call to `choice` consumes the head of the stream and picks the element
  at that index (mod the sequence length).  Every source whose `choice`
  returns an element of the sequence it is given is realised by some index
  stream, and every index stream realises such a source, so quantifying over
  `RngS` captures exactly the sources the claims quantify over.  Functions
  that consume randomness return the remaining stream alongside the result.
* Python exceptions become `Except Err`: `ValueError("Board must be at least
  4x4.")` is `Err.invalidBoard`, `ValueError("No space left to spawn food.")`
  is `Err.boardFull`.
* `snake[0]` on a (never-occurring) empty snake is totalised with `headD`;
  all reachable snakes are non-empty.
-/

/-- The two `ValueError`s the engine can raise: `InvalidBoardError` from
`create_initial_state`, `BoardFullError` from `spawn_food`. -/
inductive Err : Type where
  | invalidBoard : Err
  | boardFull : Err
deriving DecidableEq, Repr

/-- A grid point `(x, y)`. -/
abbrev Point : Type := Int × Int

/-- A movement vector. -/
abbrev Direction : Type := Int × Int

/-- Random source: an index stream.  The k-th `choice` call picks the element
at index `stream k % len`. -/
abbrev RngS : Type := Nat → Nat

/-- One `choice(seq)` call: pick the element of `l` at the streamed index
(mod length, with a default for the never-used empty case) and return the
remaining stream. -/
def choiceL {α : Type} (f : RngS) (l : List α) (d : α) : α × RngS :=
  (l.getD (f 0 % l.length) d, fun n => f (n + 1))

/-- `list(range(n))` as a list of `Int`. -/
def rangeInt (n : Nat) : List Int :=
  (List.range n).map Int.ofNat

/-- The immutable game state (`@dataclass(frozen=True) GameState`). -/
structure GameState : Type where
  width : Nat
  height : Nat
  snake : List Point
  food : Point
  direction : Direction
  score : Nat
  game_over : Bool
  lives : Int
  max_lives : Int
deriving DecidableEq, Repr, Inhabited

def UP : Direction := (0, -1)

def DOWN : Direction := (0, 1)

def LEFT : Direction := (-1, 0)

def RIGHT : Direction := (1, 0)

/-- `_initial_snake`: three segments, head at the board centre, the rest
extending in the −x direction. -/
def _initial_snake (width height : Nat) : List Point :=
  let cx : Int := (width / 2 : Nat)
  let cy : Int := (height / 2 : Nat)
  [(cx, cy), (cx - 1, cy), (cx - 2, cy)]

/-- The grid cells `(i, j)` with `i < m` (outer loop) and `j < n` (inner
loop), in loop order. -/
def gridL (m n : Nat) : List (Nat × Nat) :=
  (List.range m).flatMap (fun i => (List.range n).map (fun j => (i, j)))

/-- Board cells in row-major order (`for y in range(height) for x in
range(width)`), as used by `spawn_food`. -/
def boardRM (width height : Nat) : List Point :=
  (gridL height width).map (fun p => ((p.2 : Int), (p.1 : Int)))

/-- Board cells in column-major order (`for x in range(width) for y in
range(height)`), as used by the `_respawn_snake` fallback. -/
def boardCM (width height : Nat) : List Point :=
  (gridL width height).map (fun p => ((p.1 : Int), (p.2 : Int)))

/-- The free cells of `spawn_food`:
`[(x, y) for y in range(height) for x in range(width) if (x, y) not in occupied]`. -/
def spawnAvail (snake : List Point) (width height : Nat) : List Point :=
  (boardRM width height).filter (fun p => decide (p ∉ snake))

/-- `spawn_food(snake, width, height, rng)`. -/
def spawn_food (snake : List Point) (width height : Nat) (f : RngS) :
    Except Err (Point × RngS) :=
  let available := spawnAvail snake width height
  if available = [] then
    .error .boardFull
  else
    .ok (choiceL f available (0, 0))

/-- The fixed direction list of `_respawn_snake`:
`directions = [(1, 0), (-1, 0), (0, 1), (0, -1)]`. -/
def allDirections : List Direction :=
  [(1, 0), (-1, 0), (0, 1), (0, -1)]

/-- The inner `for dx, dy in ...: ... break` loop of `_respawn_snake`: the
first direction in `dirs` whose extension from the current tail is in bounds
and unoccupied, if any. -/
def tryDirs (width height : Nat) (snake : List Point) :
    List Direction → Option Point
  | [] => none
  | d :: rest =>
    let last := snake.getLastD (0, 0)
    let nx : Int := last.1 + d.1
    let ny : Int := last.2 + d.2
    if 0 ≤ nx ∧ nx < (width : Int) ∧ 0 ≤ ny ∧ ny < (height : Int) ∧
        (nx, ny) ∉ snake then
      some (nx, ny)
    else
      tryDirs width height snake rest

/-- The free cells of the `_respawn_snake` fallback:
`[(x, y) for x in range(width) for y in range(height) if (x, y) not in occupied]`. -/
def respawnAvail (snake : List Point) (width height : Nat) : List Point :=
  (boardCM width height).filter (fun p => decide (p ∉ snake))

/-- The extension loop of `_respawn_snake`, `fuel` iterations.  Each
iteration first calls `picker.choice([directions])` — note the singleton
candidate list, exactly as in the source — then extends via the first
workable direction, falling back to a random free cell, or stops early
(`break`) when the board is full. -/
def respawnGo (width height : Nat) :
    Nat → List Point → RngS → List Point × RngS
  | 0, snake, f => (snake, f)
  | fuel + 1, snake, f =>
    let dirsPick := choiceL f [allDirections] []
    match tryDirs width height snake dirsPick.1 with
    | some p => respawnGo width height fuel (snake ++ [p]) dirsPick.2
    | none =>
      let available := respawnAvail snake width height
      if available = [] then
        (snake, dirsPick.2)
      else
        let pick := choiceL dirsPick.2 available (0, 0)
        respawnGo width height fuel (snake ++ [pick.1]) pick.2

/-- `_respawn_snake(width, height, length, rng)`. -/
def _respawn_snake (width height length : Nat) (f : RngS) :
    List Point × RngS :=
  let sx := choiceL f (rangeInt width) 0
  let sy := choiceL sx.2 (rangeInt height) 0
  respawnGo width height (min (length - 1) (width * height - 1))
    [(sx.1, sy.1)] sy.2

/-- `_direction_from_snake`: head minus second segment; `RIGHT` for a snake
shorter than two segments. -/
def _direction_from_snake (snake : List Point) : Direction :=
  match snake with
  | p0 :: p1 :: _ => (p0.1 - p1.1, p0.2 - p1.2)
  | _ => RIGHT

/-- `update_direction(current, requested)`. -/
def update_direction (current requested : Direction) : Direction :=
  if requested = (-current.1, -current.2) then current else requested

/-- `create_initial_state(width, height, rng)`.  The Python defaults are
`width = 20, height = 20`. -/
def create_initial_state (width height : Nat) (f : RngS) :
    Except Err (GameState × RngS) :=
  if width < 4 ∨ height < 4 then
    .error .invalidBoard
  else
    let snake := _initial_snake width height
    match spawn_food snake width height f with
    | .error e => .error e
    | .ok (food, f1) =>
      .ok ({ width := width, height := height, snake := snake, food := food,
              direction := RIGHT, score := 0, game_over := false, lives := 3,
              max_lives := 3 }, f1)

/-- `_after_collision(state, rng)`: lose a life; freeze on a fatal hit,
otherwise respawn a snake of the same length and new food. -/
def _after_collision (state : GameState) (f : RngS) :
    Except Err (GameState × RngS) :=
  let next_lives := state.lives - 1
  if next_lives ≤ 0 then
    .ok ({ state with game_over := true, lives := 0 }, f)
  else
    let rs := _respawn_snake state.width state.height state.snake.length f
    match spawn_food rs.1 state.width state.height rs.2 with
    | .error e => .error e
    | .ok (next_food, f2) =>
      .ok ({ state with
              snake := rs.1, food := next_food,
              direction := _direction_from_snake rs.1, game_over := false,
              lives := next_lives }, f2)

/-- The effective direction of a tick: `state.direction`, passed through
`update_direction` when a direction was requested. -/
def effDir (state : GameState) (requested : Option Direction) : Direction :=
  match requested with
  | none => state.direction
  | some r => update_direction state.direction r

/-- `next_head = (head_x + direction[0], head_y + direction[1])`. -/
def nextHead (state : GameState) (direction : Direction) : Point :=
  let head := state.snake.headD (0, 0)
  (head.1 + direction.1, head.2 + direction.2)

/-- The wall-collision test of `step_state`. -/
def hitsWall (state : GameState) (p : Point) : Prop :=
  p.1 < 0 ∨ (state.width : Int) ≤ p.1 ∨ p.2 < 0 ∨ (state.height : Int) ≤ p.2

instance (state : GameState) (p : Point) : Decidable (hitsWall state p) := by
  unfold hitsWall
  infer_instance

/-- `body_for_collision = snake if grow else snake[:-1]`. -/
def bodyFor (state : GameState) (grow : Bool) : List Point :=
  if grow then state.snake else state.snake.dropLast

/-- `step_state(state, requested_direction, rng)`. -/
def step_state (state : GameState) (requested : Option Direction)
    (f : RngS) : Except Err (GameState × RngS) :=
  if state.game_over then
    .ok (state, f)
  else
    let direction := effDir state requested
    let next_head := nextHead state direction
    if hitsWall state next_head then
      _after_collision { state with direction := direction } f
    else
      let grow : Bool := decide (next_head = state.food)
      if next_head ∈ bodyFor state grow then
        _after_collision { state with direction := direction } f
      else
        let next_snake := next_head :: state.snake
        if grow then
          let next_score := state.score + 1
          if next_snake.length = state.width * state.height then
            .ok ({ state with
                    snake := next_snake, direction := direction,
                    score := next_score, game_over := true }, f)
          else
            match spawn_food next_snake state.width state.height f with
            | .error e => .error e
            | .ok (next_food, f1) =>
              .ok ({ state with
                      snake := next_snake, food := next_food,
                      direction := direction, score := next_score,
                      game_over := false }, f1)
        else
          .ok ({ state with
                  snake := next_snake.dropLast,
                  direction := direction, game_over := false }, f)

/-- Run `step_state` over a list of requested directions, threading the
random stream as a shared `Random`-style object is threaded in Python. -/
def runSteps : GameState → List (Option Direction) → RngS →
    Except Err (GameState × RngS)
  | s, [], f => .ok (s, f)
  | s, d :: ds, f =>
    match step_state s d f with
    | .error e => .error e
    | .ok (s1, f1) => runSteps s1 ds f1

/-- Forget the returned stream, keeping the state (or `none` on an error). -/
def stateOf (r : Except Err (GameState × RngS)) : Option GameState :=
  match r with
  | .ok (s, _) => some s
  | .error _ => none

/-- The states reachable from `create_initial_state` by `step_state`, over
every board size, every requested-direction sequence and every random
source. -/
inductive Reachable : GameState → Prop where
  | init (w h : Nat) (f : RngS) (s : GameState) :
      stateOf (create_initial_state w h f) = some s → Reachable s
  | next (s : GameState) (d : Option Direction) (f : RngS) (s1 : GameState) :
      Reachable s → stateOf (step_state s d f) = some s1 → Reachable s1

/-! ## Board geometry -/

/-- A point lies on the board: the complement of the wall-collision test. -/
def inBounds (width height : Nat) (p : Point) : Prop :=
  0 ≤ p.1 ∧ p.1 < (width : Int) ∧ 0 ≤ p.2 ∧ p.2 < (height : Int)

instance (width height : Nat) (p : Point) :
    Decidable (inBounds width height p) := by
  unfold inBounds
  infer_instance

theorem mem_gridL {m n : Nat} {p : Nat × Nat} :
    p ∈ gridL m n ↔ p.1 < m ∧ p.2 < n := by
  cases p with
  | mk i j =>
    simp only [gridL, List.mem_flatMap, List.mem_map, List.mem_range,
      Prod.mk.injEq]
    constructor
    · rintro ⟨a, ha, b, hb, rfl, rfl⟩
      exact ⟨ha, hb⟩
    · rintro ⟨hi, hj⟩
      exact ⟨i, hi, j, hj, rfl, rfl⟩

theorem length_gridL (m n : Nat) : (gridL m n).length = m * n := by
  induction m with
  | zero => simp [gridL]
  | succ k ih =>
    rw [gridL, List.range_succ, List.flatMap_append] at *
    simp only [List.flatMap_cons, List.flatMap_nil, List.append_nil,
      List.length_append, List.length_map, List.length_range] at *
    rw [ih]
    ring

theorem nodup_gridL (m n : Nat) : (gridL m n).Nodup := by
  induction m with
  | zero => simp [gridL]
  | succ k ih =>
    rw [gridL, List.range_succ, List.flatMap_append] at *
    simp only [List.flatMap_cons, List.flatMap_nil, List.append_nil]
    refine List.Nodup.append ih ?_ ?_
    · exact (List.nodup_range _).map (fun a b hab => by
        simpa using congrArg Prod.snd hab)
    · intro p hp hp2
      have h1 : p.1 < k := (mem_gridL.1 hp).1
      have h2 : p.1 = k := by
        rcases List.mem_map.1 hp2 with ⟨j, hj, rfl⟩
        rfl
      omega

theorem mem_boardRM {width height : Nat} {p : Point} :
    p ∈ boardRM width height ↔ inBounds width height p := by
  cases p with
  | mk x y =>
    simp only [boardRM, List.mem_map, Prod.mk.injEq]
    constructor
    · rintro ⟨q, hq, rfl, rfl⟩
      obtain ⟨h1, h2⟩ := mem_gridL.1 hq
      refine ⟨?_, ?_, ?_, ?_⟩ <;> simp [inBounds] <;> omega
    · rintro ⟨hx0, hxw, hy0, hyh⟩
      refine ⟨(y.toNat, x.toNat), mem_gridL.2 ⟨by omega, by omega⟩, ?_, ?_⟩ <;>
        simp <;> omega

theorem length_boardRM (width height : Nat) :
    (boardRM width height).length = width * height := by
  rw [boardRM, List.length_map, length_gridL]
  ring

theorem nodup_boardRM (width height : Nat) :
    (boardRM width height).Nodup := by
  refine (nodup_gridL _ _).map ?_
  intro a b hab
  have h1 := congrArg Prod.fst hab
  have h2 := congrArg Prod.snd hab
  simp only at h1 h2
  ext <;> omega

theorem mem_boardCM {width height : Nat} {p : Point} :
    p ∈ boardCM width height ↔ inBounds width height p := by
  cases p with
  | mk x y =>
    simp only [boardCM, List.mem_map, Prod.mk.injEq]
    constructor
    · rintro ⟨q, hq, rfl, rfl⟩
      obtain ⟨h1, h2⟩ := mem_gridL.1 hq
      refine ⟨?_, ?_, ?_, ?_⟩ <;> simp [inBounds] <;> omega
    · rintro ⟨hx0, hxw, hy0, hyh⟩
      refine ⟨(x.toNat, y.toNat), mem_gridL.2 ⟨by omega, by omega⟩, ?_, ?_⟩ <;>
        simp <;> omega

theorem length_boardCM (width height : Nat) :
    (boardCM width height).length = width * height := by
  rw [boardCM, List.length_map, length_gridL]

theorem nodup_boardCM (width height : Nat) :
    (boardCM width height).Nodup := by
  refine (nodup_gridL _ _).map ?_
  intro a b hab
  have h1 := congrArg Prod.fst hab
  have h2 := congrArg Prod.snd hab
  simp only at h1 h2
  ext <;> omega

/-! ## Free cells and food spawning -/

/-- Pigeonhole: a snake occupying fewer cells than a duplicate-free board
list cannot cover it, so some cell passes the freeness filter. -/
theorem filter_avail_ne_nil {L snake : List Point} (hnd : L.Nodup)
    (hlen : snake.length < L.length) :
    L.filter (fun p => decide (p ∉ snake)) ≠ [] := by
  intro hnil
  have hsub : ∀ x ∈ L, x ∈ snake := by
    intro x hx
    by_contra hxn
    have hxf : x ∈ L.filter (fun p => decide (p ∉ snake)) :=
      List.mem_filter.2 ⟨hx, by simpa using hxn⟩
    rw [hnil] at hxf
    exact (List.not_mem_nil x) hxf
  have hle := (hnd.subperm (fun x hx => hsub x hx)).length_le
  omega

theorem mem_spawnAvail {snake : List Point} {width height : Nat} {p : Point} :
    p ∈ spawnAvail snake width height ↔
      inBounds width height p ∧ p ∉ snake := by
  simp [spawnAvail, List.mem_filter, mem_boardRM]

theorem spawnAvail_ne_nil {snake : List Point} {width height : Nat}
    (hlen : snake.length < width * height) :
    spawnAvail snake width height ≠ [] :=
  filter_avail_ne_nil (nodup_boardRM width height)
    (by rw [length_boardRM]; exact hlen)

theorem mem_respawnAvail {snake : List Point} {width height : Nat} {p : Point} :
    p ∈ respawnAvail snake width height ↔
      inBounds width height p ∧ p ∉ snake := by
  simp [respawnAvail, List.mem_filter, mem_boardCM]

theorem respawnAvail_ne_nil {snake : List Point} {width height : Nat}
    (hlen : snake.length < width * height) :
    respawnAvail snake width height ≠ [] :=
  filter_avail_ne_nil (nodup_boardCM width height)
    (by rw [length_boardCM]; exact hlen)

theorem choiceL_fst_mem {α : Type} (f : RngS) {l : List α} (d : α)
    (h : l ≠ []) : (choiceL f l d).1 ∈ l := by
  have hpos : 0 < l.length := List.length_pos.2 h
  have hlt : f 0 % l.length < l.length := Nat.mod_lt _ hpos
  rw [choiceL, List.getD_eq_getElem l d hlt]
  exact List.getElem_mem hlt

theorem spawn_food_ok_mem {snake : List Point} {width height : Nat}
    {f : RngS} {p : Point} {f1 : RngS}
    (heq : spawn_food snake width height f = .ok (p, f1)) :
    inBounds width height p ∧ p ∉ snake := by
  by_cases hne : spawnAvail snake width height = []
  · simp [spawn_food, hne] at heq
  · have hp : (choiceL f (spawnAvail snake width height) (0, 0)).1 = p := by
      simp only [spawn_food, if_neg hne, Except.ok.injEq, Prod.ext_iff]
        at heq
      exact Prod.ext heq.1.1 heq.1.2
    rw [← hp]
    exact mem_spawnAvail.1 (choiceL_fst_mem f _ hne)

theorem spawn_food_isOk {snake : List Point} {width height : Nat} (f : RngS)
    (hlen : snake.length < width * height) :
    ∃ p f1, spawn_food snake width height f = .ok (p, f1) := by
  unfold spawn_food
  rw [if_neg (spawnAvail_ne_nil hlen)]
  exact ⟨_, _, rfl⟩

/-! ## Respawn -/

theorem length_rangeInt (n : Nat) : (rangeInt n).length = n := by
  rw [rangeInt, List.length_map, List.length_range]

theorem rangeInt_ne_nil {n : Nat} (h : n ≠ 0) : rangeInt n ≠ [] := by
  intro hnil
  have hl := length_rangeInt n
  rw [hnil] at hl
  exact h (by simpa using hl.symm)

theorem mem_rangeInt {n : Nat} {x : Int} :
    x ∈ rangeInt n ↔ 0 ≤ x ∧ x < (n : Int) := by
  rw [rangeInt]
  constructor
  · intro hx
    rcases List.mem_map.1 hx with ⟨k, hk, rfl⟩
    rw [List.mem_range] at hk
    simp only [Int.ofNat_eq_natCast]
    omega
  · rintro ⟨h0, hn⟩
    refine List.mem_map.2 ⟨x.toNat, List.mem_range.2 (by omega), ?_⟩
    simp only [Int.ofNat_eq_natCast]
    omega

theorem nodup_append_singleton {α : Type} {l : List α} {p : α}
    (h : l.Nodup) (hp : p ∉ l) : (l ++ [p]).Nodup := by
  rw [List.nodup_append]
  exact ⟨h, List.nodup_singleton p, by simpa [List.disjoint_singleton] using hp⟩

theorem tryDirs_some {width height : Nat} {snake : List Point}
    {dirs : List Direction} {p : Point}
    (h : tryDirs width height snake dirs = some p) :
    inBounds width height p ∧ p ∉ snake := by
  induction dirs with
  | nil => simp [tryDirs] at h
  | cons d rest ih =>
    simp only [tryDirs] at h
    split at h
    · rename_i hcond
      obtain ⟨h1, h2, h3, h4, h5⟩ := hcond
      injection h with h6
      subst h6
      exact ⟨⟨h1, h2, h3, h4⟩, h5⟩
    · exact ih h

theorem respawnGo_spec (width height : Nat) :
    ∀ (fuel : Nat) (snake : List Point) (f : RngS),
      snake ≠ [] → snake.Nodup →
      (∀ p ∈ snake, inBounds width height p) →
      snake.length + fuel ≤ width * height →
      (respawnGo width height fuel snake f).1.Nodup ∧
        (∀ p ∈ (respawnGo width height fuel snake f).1,
          inBounds width height p) ∧
        (respawnGo width height fuel snake f).1.length =
          snake.length + fuel ∧
        (respawnGo width height fuel snake f).1 ≠ [] := by
  intro fuel
  induction fuel with
  | zero =>
    intro snake f h1 h2 h3 h4
    simp only [respawnGo]
    exact ⟨h2, h3, by omega, h1⟩
  | succ k ih =>
    intro snake f hne hnd hib hlen
    cases htd : tryDirs width height snake
        (choiceL f [allDirections] []).1 with
    | some p =>
      obtain ⟨hpin, hpnot⟩ := tryDirs_some htd
      simp only [respawnGo, htd]
      obtain ⟨a, b, c, d⟩ := ih (snake ++ [p]) (choiceL f [allDirections] []).2
        (by simp) (nodup_append_singleton hnd hpnot)
        (by intro q hq
            rcases List.mem_append.1 hq with hq | hq
            · exact hib q hq
            · rwa [List.mem_singleton.1 hq])
        (by simp only [List.length_append, List.length_singleton]; omega)
      refine ⟨a, b, ?_, d⟩
      simp only [List.length_append, List.length_singleton] at c
      omega
    | none =>
      have hfree : respawnAvail snake width height ≠ [] :=
        respawnAvail_ne_nil (by omega)
      have hmem := choiceL_fst_mem (choiceL f [allDirections] []).2
        ((0, 0) : Point) hfree
      obtain ⟨hpin, hpnot⟩ := mem_respawnAvail.1 hmem
      simp only [respawnGo, htd, if_neg hfree]
      obtain ⟨a, b, c, d⟩ := ih _ _
        (by simp) (nodup_append_singleton hnd hpnot)
        (by intro q hq
            rcases List.mem_append.1 hq with hq | hq
            · exact hib q hq
            · rwa [List.mem_singleton.1 hq])
        (by simp only [List.length_append, List.length_singleton]; omega)
      refine ⟨a, b, ?_, d⟩
      simp only [List.length_append, List.length_singleton] at c
      omega

theorem respawn_snake_spec (width height length : Nat) (f : RngS)
    (hw : 1 ≤ width) (hh : 1 ≤ height) (hl : 1 ≤ length) :
    (_respawn_snake width height length f).1.Nodup ∧
      (∀ p ∈ (_respawn_snake width height length f).1,
        inBounds width height p) ∧
      (_respawn_snake width height length f).1.length =
        min length (width * height) ∧
      (_respawn_snake width height length f).1 ≠ [] := by
  have hwh : 1 ≤ width * height := Nat.one_le_iff_ne_zero.2 (by positivity)
  have hsx := choiceL_fst_mem f ((0 : Int)) (l := rangeInt width)
    (rangeInt_ne_nil (by omega))
  have hsy := choiceL_fst_mem (choiceL f (rangeInt width) 0).2 ((0 : Int))
    (l := rangeInt height) (rangeInt_ne_nil (by omega))
  obtain ⟨hx0, hxw⟩ := mem_rangeInt.1 hsx
  obtain ⟨hy0, hyh⟩ := mem_rangeInt.1 hsy
  simp only [_respawn_snake]
  obtain ⟨a, b, c, d⟩ := respawnGo_spec width height
    (min (length - 1) (width * height - 1))
    [((choiceL f (rangeInt width) 0).1, (choiceL (choiceL f (rangeInt width) 0).2 (rangeInt height) 0).1)]
    (choiceL (choiceL f (rangeInt width) 0).2 (rangeInt height) 0).2
    (by simp)
    (List.nodup_singleton _)
    (by intro q hq
        rw [List.mem_singleton.1 hq]
        exact ⟨hx0, hxw, hy0, hyh⟩)
    (by simp only [List.length_singleton]; omega)
  refine ⟨a, b, ?_, d⟩
  simp only [List.length_singleton] at c
  omega

/-! ## Collision handling -/

theorem after_collision_fatal {s : GameState} {f : RngS}
    (h : s.lives - 1 ≤ 0) :
    _after_collision s f = .ok ({ s with game_over := true, lives := 0 }, f) := by
  simp only [_after_collision]
  rw [if_pos h]

theorem after_collision_nonfatal {s : GameState} {f : RngS}
    (hl : ¬ s.lives - 1 ≤ 0) (hw : 1 ≤ s.width) (hh : 1 ≤ s.height)
    (hsne : s.snake ≠ []) (hlen : s.snake.length < s.width * s.height) :
    ∃ s1 f1, _after_collision s f = .ok (s1, f1) ∧
      s1.game_over = false ∧ s1.lives = s.lives - 1 ∧
      s1.snake.length = s.snake.length ∧ s1.score = s.score ∧
      s1.snake.Nodup ∧ (∀ p ∈ s1.snake, inBounds s.width s.height p) ∧
      s1.food ∉ s1.snake ∧ s1.snake ≠ [] ∧
      s1.width = s.width ∧ s1.height = s.height ∧
      s1.max_lives = s.max_lives ∧
      s1.direction = _direction_from_snake s1.snake := by
  have hl1 : 1 ≤ s.snake.length := List.length_pos.2 hsne
  obtain ⟨hnd, hib, hrl, hrne⟩ :=
    respawn_snake_spec s.width s.height s.snake.length f hw hh hl1
  have hminlen :
      (_respawn_snake s.width s.height s.snake.length f).1.length =
        s.snake.length := by
    rw [hrl]; omega
  obtain ⟨p, f2, hspawn⟩ := spawn_food_isOk
    (_respawn_snake s.width s.height s.snake.length f).2
    (by rw [hminlen]; exact hlen)
  refine ⟨⟨s.width, s.height,
      (_respawn_snake s.width s.height s.snake.length f).1, p,
      _direction_from_snake (_respawn_snake s.width s.height s.snake.length f).1,
      s.score, false, s.lives - 1, s.max_lives⟩, f2, ?_, rfl, rfl, hminlen,
      rfl, hnd, hib, ?_, hrne, rfl, rfl, rfl, rfl⟩
  · simp only [_after_collision]
    rw [if_neg hl, hspawn]
  · exact (spawn_food_ok_mem hspawn).2

/-! ## Step characterisations -/

theorem step_state_gameover {s : GameState} {d : Option Direction} {f : RngS}
    (h : s.game_over = true) : step_state s d f = .ok (s, f) := by
  simp [step_state, h]

theorem step_state_wall {s : GameState} {d : Option Direction} {f : RngS}
    (hgo : s.game_over = false)
    (hob : hitsWall s (nextHead s (effDir s d))) :
    step_state s d f =
      _after_collision { s with direction := effDir s d } f := by
  simp only [step_state, hgo, Bool.false_eq_true, if_false]
  rw [if_pos hob]

theorem step_state_self {s : GameState} {d : Option Direction} {f : RngS}
    (hgo : s.game_over = false)
    (hob : ¬ hitsWall s (nextHead s (effDir s d)))
    (hbody : nextHead s (effDir s d) ∈
      bodyFor s (decide (nextHead s (effDir s d) = s.food))) :
    step_state s d f =
      _after_collision { s with direction := effDir s d } f := by
  simp only [step_state, hgo, Bool.false_eq_true, if_false]
  rw [if_neg hob, if_pos hbody]

theorem step_state_win {s : GameState} {d : Option Direction} {f : RngS}
    (hgo : s.game_over = false)
    (hob : ¬ hitsWall s (nextHead s (effDir s d)))
    (hgrow : nextHead s (effDir s d) = s.food)
    (hbody : nextHead s (effDir s d) ∉ s.snake)
    (hwin : s.snake.length + 1 = s.width * s.height) :
    step_state s d f =
      .ok ({ s with
              snake := nextHead s (effDir s d) :: s.snake,
              direction := effDir s d, score := s.score + 1,
              game_over := true }, f) := by
  have hdec : decide (nextHead s (effDir s d) = s.food) = true := by
    simp [hgrow]
  simp only [step_state, hgo, Bool.false_eq_true, if_false]
  rw [if_neg hob]
  simp only [hdec, bodyFor, if_true]
  rw [if_neg hbody, if_pos (by simpa using hwin)]

theorem step_state_grow_spawn {s : GameState} {d : Option Direction}
    {f : RngS} {p : Point} {f1 : RngS}
    (hgo : s.game_over = false)
    (hob : ¬ hitsWall s (nextHead s (effDir s d)))
    (hgrow : nextHead s (effDir s d) = s.food)
    (hbody : nextHead s (effDir s d) ∉ s.snake)
    (hwin : s.snake.length + 1 ≠ s.width * s.height)
    (hspawn : spawn_food (nextHead s (effDir s d) :: s.snake) s.width
      s.height f = .ok (p, f1)) :
    step_state s d f =
      .ok ({ s with
              snake := nextHead s (effDir s d) :: s.snake, food := p,
              direction := effDir s d, score := s.score + 1,
              game_over := false }, f1) := by
  have hdec : decide (nextHead s (effDir s d) = s.food) = true := by
    simp [hgrow]
  simp only [step_state, hgo, Bool.false_eq_true, if_false]
  rw [if_neg hob]
  simp only [hdec, bodyFor, if_true]
  rw [if_neg hbody, if_neg (by simpa using hwin), hspawn]

theorem step_state_nogrow {s : GameState} {d : Option Direction} {f : RngS}
    (hgo : s.game_over = false)
    (hob : ¬ hitsWall s (nextHead s (effDir s d)))
    (hgrow : nextHead s (effDir s d) ≠ s.food)
    (hbody : nextHead s (effDir s d) ∉ s.snake.dropLast) :
    step_state s d f =
      .ok ({ s with
              snake := (nextHead s (effDir s d) :: s.snake).dropLast,
              direction := effDir s d, game_over := false }, f) := by
  have hdec : decide (nextHead s (effDir s d) = s.food) = false := by
    simp [hgrow]
  simp only [step_state, hgo, Bool.false_eq_true, if_false]
  rw [if_neg hob]
  simp only [hdec, bodyFor, if_false, Bool.false_eq_true]
  rw [if_neg hbody]

/-! ## The reachable-state invariant -/

/-- The inductive invariant of the engine: the board is at least 4×4, the
snake is a non-empty duplicate-free list of on-board cells no longer than
the board, during play it is strictly shorter than the board and avoids the
food, and the food can only sit on the snake in a board-filling state. -/
def EngineInv (s : GameState) : Prop :=
  4 ≤ s.width ∧ 4 ≤ s.height ∧
  s.snake ≠ [] ∧ s.snake.Nodup ∧
  (∀ p ∈ s.snake, inBounds s.width s.height p) ∧
  s.snake.length ≤ s.width * s.height ∧
  (s.game_over = false →
    s.snake.length < s.width * s.height ∧ s.food ∉ s.snake) ∧
  (s.food ∉ s.snake ∨ s.snake.length = s.width * s.height)

theorem not_hitsWall {s : GameState} {p : Point} :
    ¬ hitsWall s p ↔ inBounds s.width s.height p := by
  unfold hitsWall inBounds
  omega

theorem create_ok_elim {w h : Nat} {f : RngS} {s : GameState}
    (hc : stateOf (create_initial_state w h f) = some s) :
    ¬ (w < 4 ∨ h < 4) ∧
      ∃ p f1, spawn_food (_initial_snake w h) w h f = .ok (p, f1) ∧
        s = ⟨w, h, _initial_snake w h, p, RIGHT, 0, false, 3, 3⟩ := by
  by_cases hb : w < 4 ∨ h < 4
  · simp [create_initial_state, hb, stateOf] at hc
  · cases hsp : spawn_food (_initial_snake w h) w h f with
    | error e => simp [create_initial_state, hb, hsp, stateOf] at hc
    | ok pf =>
      obtain ⟨p, f1⟩ := pf
      refine ⟨hb, p, f1, rfl, ?_⟩
      simp only [create_initial_state, if_neg hb, hsp, stateOf,
        Option.some.injEq] at hc
      exact hc.symm

theorem initial_snake_facts {w h : Nat} (hw : 4 ≤ w) (hh : 4 ≤ h) :
    (_initial_snake w h) ≠ [] ∧ (_initial_snake w h).Nodup ∧
      (∀ p ∈ _initial_snake w h, inBounds w h p) ∧
      (_initial_snake w h).length = 3 := by
  unfold _initial_snake
  refine ⟨by simp, ?_, ?_, by simp⟩
  · refine List.nodup_cons.2 ⟨?_, List.nodup_cons.2 ⟨?_,
      List.nodup_singleton _⟩⟩
    · simp only [List.mem_cons, List.mem_singleton, Prod.mk.injEq, not_or,
        List.not_mem_nil, or_false]
      refine ⟨?_, ?_⟩ <;> rintro ⟨h1, h2⟩ <;> omega
    · simp only [List.mem_singleton, List.mem_cons, List.not_mem_nil,
        or_false, Prod.mk.injEq]
      rintro ⟨h1, h2⟩
      omega
  · intro p hp
    rcases List.mem_cons.1 hp with rfl | hp
    · exact ⟨by omega, by omega, by omega, by omega⟩
    · rcases List.mem_cons.1 hp with rfl | hp
      · exact ⟨by omega, by omega, by omega, by omega⟩
      · rcases List.mem_cons.1 hp with rfl | hp
        · exact ⟨by omega, by omega, by omega, by omega⟩
        · exact absurd hp (List.not_mem_nil p)

theorem inv_create {w h : Nat} {f : RngS} {s : GameState}
    (hc : stateOf (create_initial_state w h f) = some s) : EngineInv s := by
  obtain ⟨hb, p, f1, hsp, rfl⟩ := create_ok_elim hc
  have hw : 4 ≤ w := by omega
  have hh : 4 ≤ h := by omega
  obtain ⟨hne, hnd, hib, hlen⟩ := initial_snake_facts hw hh
  have hwh : 16 ≤ w * h := Nat.mul_le_mul hw hh
  obtain ⟨hpin, hpnot⟩ := spawn_food_ok_mem hsp
  exact ⟨hw, hh, hne, hnd, hib, by dsimp only; omega,
    fun _ => ⟨by dsimp only; omega, hpnot⟩, Or.inl hpnot⟩


theorem inv_after_collision {s : GameState} {f : RngS} {s1 : GameState}
    {f1 : RngS} (hinv : EngineInv s) (hgo : s.game_over = false)
    (heq : _after_collision s f = .ok (s1, f1)) : EngineInv s1 := by
  obtain ⟨hw, hh, hne, hnd, hib, hlen, hplay, hwin⟩ := hinv
  obtain ⟨hlt, hfood⟩ := hplay hgo
  by_cases hfatal : s.lives - 1 ≤ 0
  · rw [after_collision_fatal hfatal] at heq
    injection heq with heq2
    have hs1 : s1 = { s with game_over := true, lives := 0 } :=
      (congrArg Prod.fst heq2).symm
    subst hs1
    exact ⟨hw, hh, hne, hnd, hib, hlen, by simp, Or.inl hfood⟩
  · obtain ⟨s2, f2, heq2, hgo2, hlv2, hln2, hsc2, hnd2, hib2, hfd2, hne2,
      hwd2, hht2, hml2, hdr2⟩ :=
      after_collision_nonfatal hfatal (by omega) (by omega) hne hlt
    rw [heq2] at heq
    injection heq with heq3
    have hs1 : s1 = s2 := (congrArg Prod.fst heq3).symm
    subst hs1
    refine ⟨by omega, by omega, hne2, hnd2, ?_, ?_, ?_, Or.inl hfd2⟩
    · rw [hwd2, hht2]
      exact hib2
    · rw [hwd2, hht2]
      omega
    · intro _
      rw [hwd2, hht2]
      exact ⟨by omega, hfd2⟩

theorem inv_step {s : GameState} {d : Option Direction} {f : RngS}
    {s1 : GameState} (hinv : EngineInv s)
    (hst : stateOf (step_state s d f) = some s1) : EngineInv s1 := by
  by_cases hgo : s.game_over = true
  · rw [step_state_gameover hgo] at hst
    simp only [stateOf, Option.some.injEq] at hst
    rwa [← hst]
  · rw [Bool.not_eq_true] at hgo
    obtain ⟨hw, hh, hne, hnd, hib, hlen, hplay, hwinv⟩ := hinv
    obtain ⟨hlt, hfood⟩ := hplay hgo
    have hcoll : ∀ (heq : step_state s d f =
        _after_collision { s with direction := effDir s d } f),
        EngineInv s1 := by
      intro heq
      rw [heq] at hst
      cases hac : _after_collision { s with direction := effDir s d } f with
      | error e => rw [hac] at hst; simp [stateOf] at hst
      | ok out =>
        obtain ⟨s2, f2⟩ := out
        rw [hac] at hst
        simp only [stateOf, Option.some.injEq] at hst
        subst hst
        exact inv_after_collision (s := { s with direction := effDir s d })
          ⟨hw, hh, hne, hnd, hib, hlen, fun _ => ⟨hlt, hfood⟩,
            Or.inl hfood⟩ hgo hac
    by_cases hob : hitsWall s (nextHead s (effDir s d))
    · exact hcoll (step_state_wall hgo hob)
    · have hinb : inBounds s.width s.height (nextHead s (effDir s d)) :=
        not_hitsWall.1 hob
      by_cases hgrow : nextHead s (effDir s d) = s.food
      · by_cases hbody : nextHead s (effDir s d) ∈ s.snake
        · refine hcoll (step_state_self hgo hob ?_)
          simpa [bodyFor, hgrow] using hbody
        · by_cases hwin : s.snake.length + 1 = s.width * s.height
          · rw [step_state_win hgo hob hgrow hbody hwin] at hst
            simp only [stateOf, Option.some.injEq] at hst
            subst hst
            refine ⟨hw, hh, by simp, List.nodup_cons.2 ⟨hbody, hnd⟩, ?_,
              ?_, by simp, ?_⟩
            · intro p hp
              rcases List.mem_cons.1 hp with rfl | hp
              · exact hinb
              · exact hib p hp
            · simp only [List.length_cons]
              omega
            · right
              simp only [List.length_cons]
              omega
          · have hlt2 : (nextHead s (effDir s d) :: s.snake).length <
                s.width * s.height := by
              simp only [List.length_cons]
              omega
            obtain ⟨p, f2, hsp⟩ := spawn_food_isOk f hlt2
            rw [step_state_grow_spawn hgo hob hgrow hbody hwin hsp] at hst
            simp only [stateOf, Option.some.injEq] at hst
            subst hst
            obtain ⟨hpin, hpnot⟩ := spawn_food_ok_mem hsp
            refine ⟨hw, hh, by simp, List.nodup_cons.2 ⟨hbody, hnd⟩, ?_,
              ?_, fun _ => ⟨?_, hpnot⟩, Or.inl hpnot⟩
            · intro p2 hp2
              rcases List.mem_cons.1 hp2 with rfl | hp2
              · exact hinb
              · exact hib p2 hp2
            · simp only [List.length_cons] at hlt2 ⊢
              omega
            · simp only [List.length_cons] at hlt2 ⊢
              omega
      · by_cases hbody : nextHead s (effDir s d) ∈ s.snake.dropLast
        · refine hcoll (step_state_self hgo hob ?_)
          simpa [bodyFor, hgrow] using hbody
        · rw [step_state_nogrow hgo hob hgrow hbody] at hst
          simp only [stateOf, Option.some.injEq] at hst
          subst hst
          have hdc : (nextHead s (effDir s d) :: s.snake).dropLast =
              nextHead s (effDir s d) :: s.snake.dropLast :=
            List.dropLast_cons_of_ne_nil hne
          have hlsub : ∀ q ∈ s.snake.dropLast, q ∈ s.snake :=
            fun q hq => (List.dropLast_sublist s.snake).subset hq
          have hlend : s.snake.dropLast.length = s.snake.length - 1 :=
            List.length_dropLast s.snake
          have hpos : 1 ≤ s.snake.length := List.length_pos.2 hne
          refine ⟨hw, hh, by simp [hdc], ?_, ?_, ?_, ?_, ?_⟩
          · simp only [hdc]
            exact List.nodup_cons.2
              ⟨hbody, hnd.sublist (List.dropLast_sublist s.snake)⟩
          · intro p hp
            simp only [hdc] at hp
            rcases List.mem_cons.1 hp with rfl | hp
            · exact hinb
            · exact hib p (hlsub p hp)
          · simp only [hdc, List.length_cons, hlend]
            omega
          · intro _
            simp only [hdc]
            refine ⟨?_, ?_⟩
            · simp only [List.length_cons, hlend]
              omega
            · intro hmem
              rcases List.mem_cons.1 hmem with heq2 | hmem2
              · exact hgrow heq2.symm
              · exact hfood (hlsub _ hmem2)
          · left
            simp only [hdc]
            intro hmem
            rcases List.mem_cons.1 hmem with heq2 | hmem2
            · exact hgrow heq2.symm
            · exact hfood (hlsub _ hmem2)

theorem reachable_inv {s : GameState} (hr : Reachable s) : EngineInv s := by
  induction hr with
  | init w ht f s hc => exact inv_create hc
  | next s d f s1 _ hstep ih => exact inv_step ih hstep

theorem step_state_isOk {s : GameState} (d : Option Direction) (f : RngS)
    (hinv : EngineInv s) (hgo : s.game_over = false) :
    ∃ s2 f2, step_state s d f = .ok (s2, f2) := by
  obtain ⟨hw, hh, hne, hnd, hib, hlen, hplay, hwinv⟩ := hinv
  obtain ⟨hlt, hfood⟩ := hplay hgo
  have hcoll : ∀ (heq : step_state s d f =
      _after_collision { s with direction := effDir s d } f),
      ∃ s2 f2, step_state s d f = .ok (s2, f2) := by
    intro heq
    by_cases hfatal : s.lives - 1 ≤ 0
    · exact ⟨_, _, by
        rw [heq, after_collision_fatal
          (s := { s with direction := effDir s d }) hfatal]⟩
    · obtain ⟨s2, f2, heq2, _⟩ := after_collision_nonfatal
        (s := { s with direction := effDir s d }) hfatal
        (show 1 ≤ s.width by omega) (show 1 ≤ s.height by omega) hne hlt
      exact ⟨s2, f2, by rw [heq, heq2]⟩
  by_cases hob : hitsWall s (nextHead s (effDir s d))
  · exact hcoll (step_state_wall hgo hob)
  · by_cases hgrow : nextHead s (effDir s d) = s.food
    · by_cases hbody : nextHead s (effDir s d) ∈ s.snake
      · refine hcoll (step_state_self hgo hob ?_)
        simpa [bodyFor, hgrow] using hbody
      · by_cases hwin : s.snake.length + 1 = s.width * s.height
        · exact ⟨_, _, step_state_win hgo hob hgrow hbody hwin⟩
        · have hlt2 : (nextHead s (effDir s d) :: s.snake).length <
              s.width * s.height := by
            simp only [List.length_cons]
            omega
          obtain ⟨p, f2, hsp⟩ := spawn_food_isOk f hlt2
          exact ⟨_, _, step_state_grow_spawn hgo hob hgrow hbody hwin hsp⟩
    · by_cases hbody : nextHead s (effDir s d) ∈ s.snake.dropLast
      · refine hcoll (step_state_self hgo hob ?_)
        simpa [bodyFor, hgrow] using hbody
      · exact ⟨_, _, step_state_nogrow hgo hob hgrow hbody⟩

theorem reachable_runSteps {s s1 : GameState} {ds : List (Option Direction)}
    {f : RngS} (h : Reachable s)
    (hrun : stateOf (runSteps s ds f) = some s1) : Reachable s1 := by
  induction ds generalizing s f with
  | nil =>
    simp only [runSteps, stateOf, Option.some.injEq] at hrun
    rwa [← hrun]
  | cons d ds ih =>
    rw [runSteps] at hrun
    cases hst : step_state s d f with
    | error e => rw [hst] at hrun; simp [stateOf] at hrun
    | ok out =>
      obtain ⟨s2, f2⟩ := out
      rw [hst] at hrun
      exact ih (Reachable.next s d f s2 h (by rw [hst]; rfl)) hrun

/-! ## Direction helpers -/

theorem update_direction_ne_reverse (c r : Direction) (h0 : c ≠ (0, 0)) :
    update_direction c r ≠ (-c.1, -c.2) := by
  unfold update_direction
  split
  · intro heq
    apply h0
    obtain ⟨x, y⟩ := c
    simp only [Prod.mk.injEq] at heq ⊢
    omega
  · rename_i hne
    exact hne

theorem effDir_ne_reverse {s : GameState} (d : Option Direction)
    (h0 : s.direction ≠ (0, 0)) :
    effDir s d ≠ (-s.direction.1, -s.direction.2) := by
  cases d with
  | none =>
    simp only [effDir]
    intro heq
    apply h0
    have h1 := congrArg Prod.fst heq
    have h2 := congrArg Prod.snd heq
    simp only at h1 h2
    have hx : s.direction.1 = 0 := by omega
    have hy : s.direction.2 = 0 := by omega
    exact Prod.ext hx hy
  | some r => exact update_direction_ne_reverse s.direction r h0

theorem ok_inj_state {a s1 : GameState} {g f1 : RngS}
    (h : (Except.ok (a, g) : Except Err (GameState × RngS)) = .ok (s1, f1)) :
    s1 = a := by
  injection h with h2
  exact (congrArg Prod.fst h2).symm

theorem step_state_grow_spawn_err {s : GameState} {d : Option Direction}
    {f : RngS} {e : Err}
    (hgo : s.game_over = false)
    (hob : ¬ hitsWall s (nextHead s (effDir s d)))
    (hgrow : nextHead s (effDir s d) = s.food)
    (hbody : nextHead s (effDir s d) ∉ s.snake)
    (hwin : s.snake.length + 1 ≠ s.width * s.height)
    (hspawn : spawn_food (nextHead s (effDir s d) :: s.snake) s.width
      s.height f = .error e) :
    step_state s d f = .error e := by
  have hdec : decide (nextHead s (effDir s d) = s.food) = true := by
    simp [hgrow]
  simp only [step_state, hgo, Bool.false_eq_true, if_false]
  rw [if_neg hob]
  simp only [hdec, bodyFor, if_true]
  rw [if_neg hbody, if_neg (by simpa using hwin), hspawn]

/-! ## Concrete states used to instantiate the theorems -/

/-- The random source that always picks index 0 (a legal `choice`: it
returns the first element of every non-empty sequence). -/
def rng0 : RngS := fun _ => 0

/-- The state `create_initial_state(4, 4, rng0)` produces. -/
def startState44 : GameState :=
  ⟨4, 4, [(2, 2), (1, 2), (0, 2)], (0, 0), (1, 0), 0, false, 3, 3⟩

/-- A direction script that walks the snake of `startState44` around a fixed
Hamiltonian cycle of the 4×4 board until it has eaten every cell. -/
def winMoves : List (Option Direction) :=
  [some (1, 0), some (0, 1), some (-1, 0), some (-1, 0), some (-1, 0),
   some (0, -1), some (0, -1), some (0, -1), some (1, 0), some (1, 0),
   some (1, 0), some (0, 1), some (-1, 0), some (-1, 0), some (0, 1),
   some (1, 0), some (1, 0), some (0, 1), some (-1, 0), some (-1, 0),
   some (-1, 0), some (0, -1), some (0, -1), some (0, -1), some (1, 0),
   some (1, 0), some (1, 0), some (0, 1), some (-1, 0), some (-1, 0),
   some (0, 1), some (1, 0)]

/-- The board-filled winning state that `winMoves` reaches from
`startState44`: the snake covers all 16 cells and the food cell equals the
head. -/
def winState44 : GameState :=
  ⟨4, 4,
   [(2, 2), (1, 2), (1, 1), (2, 1), (3, 1), (3, 0), (2, 0), (1, 0), (0, 0),
    (0, 1), (0, 2), (0, 3), (1, 3), (2, 3), (3, 3), (3, 2)],
   (2, 2), (1, 0), 13, true, 3, 3⟩

/-- A 5×5 state one tick away from a wall collision with 3 lives. -/
def wallState55 : GameState :=
  ⟨5, 5, [(4, 2), (3, 2), (2, 2), (1, 2), (0, 2)], (0, 0), (1, 0), 0, false,
   3, 3⟩

/-- A 4×4 state one tick away from a wall collision with 3 lives, moving
RIGHT. -/
def wallState44 : GameState :=
  ⟨4, 4, [(3, 1), (2, 1), (1, 1)], (0, 0), (1, 0), 0, false, 3, 3⟩

/-- A 2×2 state in which eating the food fills the board. -/
def fullState22 : GameState :=
  ⟨2, 2, [(0, 0), (1, 0), (1, 1)], (0, 1), (0, 1), 0, false, 3, 3⟩

/-- A 10×10 growth scenario: head at `(3,3)` moving RIGHT onto food at
`(4,3)`. -/
def growState10 : GameState :=
  ⟨10, 10, [(3, 3), (2, 3), (1, 3)], (4, 3), (1, 0), 0, false, 3, 3⟩

/-- A stream for `_respawn_snake 4 4 2`: start cell `(1, 1)`, then index 0
at the direction-choice call. -/
def rngA : RngS := fun n => if n < 2 then 1 else 0

/-- A stream for `_respawn_snake 4 4 2`: start cell `(1, 1)`, then index 2
at the direction-choice call — were the choice made among the four
directions, this would select `(0, 1)` rather than `(1, 0)`. -/
def rngB : RngS := fun n => if n < 2 then 1 else 2

/-! ## Claim theorems -/

/-- C1 (counterexample): the claimed invariant `food ∉ snake` fails on a
reachable state.  Playing `winMoves` from the initial 4×4 state (with the
legal random source `rng0`) fills the board: the final win state keeps the
eaten food cell, which now equals the snake's head. -/
theorem C1_food_invariant_counterexample :
    Reachable winState44 ∧ winState44.food ∈ winState44.snake := by
  constructor
  · have hrun : stateOf (runSteps startState44 winMoves rng0) =
        some winState44 := by decide
    exact reachable_runSteps
      (Reachable.init 4 4 rng0 startState44 (by decide)) hrun
  · decide

/-- C1 (amended): for every reachable state the snake has no duplicate
points, and the food is not a member of the snake whenever the snake does
not fill the whole board — in particular whenever `game_over` is false.
The only exception is the board-filled win state, where the food (the last
cell eaten) coincides with the head. -/
theorem C1_invariant_amended {s : GameState} (hr : Reachable s) :
    s.snake.Nodup ∧
      (s.game_over = false → s.food ∉ s.snake) ∧
      (s.food ∉ s.snake ∨ s.snake.length = s.width * s.height) := by
  obtain ⟨-, -, -, hnd, -, -, hplay, hwin⟩ := reachable_inv hr
  exact ⟨hnd, fun hgo => (hplay hgo).2, hwin⟩

/-- C1 witness: the amended invariant instantiated at the concrete initial
state of a 4×4 game. -/
theorem C1_invariant_amended_witness :
    startState44.snake.Nodup ∧
      (startState44.game_over = false →
        startState44.food ∉ startState44.snake) ∧
      (startState44.food ∉ startState44.snake ∨
        startState44.snake.length = startState44.width * startState44.height) :=
  C1_invariant_amended (Reachable.init 4 4 rng0 startState44 (by decide))

/-- C2: on a collision (wall or self), `step_state` decrements `lives`; if
the decremented value is ≤ 0 it freezes the pre-collision snake, food and
score with `game_over = true` and `lives = 0`; otherwise it returns a live
state with the decremented lives, a respawned snake of the same length, and
the score unchanged. -/
theorem C2_collision_effects {s : GameState} {d : Option Direction}
    {f : RngS}
    (hgo : s.game_over = false) (hne : s.snake ≠ [])
    (hw : 1 ≤ s.width) (hh : 1 ≤ s.height)
    (hlen : s.snake.length < s.width * s.height)
    (hc : hitsWall s (nextHead s (effDir s d)) ∨
      nextHead s (effDir s d) ∈
        bodyFor s (decide (nextHead s (effDir s d) = s.food))) :
    (s.lives - 1 ≤ 0 →
      step_state s d f =
        .ok ({ s with
                direction := effDir s d, game_over := true,
                lives := 0 }, f)) ∧
    (0 < s.lives - 1 →
      ∃ s1 f1, step_state s d f = .ok (s1, f1) ∧
        s1.game_over = false ∧ s1.lives = s.lives - 1 ∧
        s1.snake.length = s.snake.length ∧ s1.score = s.score) := by
  have hstep : step_state s d f =
      _after_collision { s with direction := effDir s d } f := by
    rcases hc with hob | hbody
    · exact step_state_wall hgo hob
    · by_cases hob : hitsWall s (nextHead s (effDir s d))
      · exact step_state_wall hgo hob
      · exact step_state_self hgo hob hbody
  constructor
  · intro hfatal
    rw [hstep,
      after_collision_fatal (s := { s with direction := effDir s d }) hfatal]
  · intro hlive
    obtain ⟨s1, f1, heq, hgo1, hlv1, hln1, hsc1, -⟩ :=
      after_collision_nonfatal (s := { s with direction := effDir s d })
        (show ¬ s.lives - 1 ≤ 0 by omega) (show 1 ≤ s.width by omega)
        (show 1 ≤ s.height by omega) hne hlen
    exact ⟨s1, f1, by rw [hstep, heq], hgo1, hlv1, hln1, hsc1⟩

/-- C2 witness: a 5×5 wall collision with 3 lives; both branches of the
theorem instantiated (the fatal branch vacuously, the live branch
concretely). -/
theorem C2_collision_effects_witness :
    (wallState55.lives - 1 ≤ 0 →
      step_state wallState55 none rng0 =
        .ok ({ wallState55 with
                direction := effDir wallState55 none,
                game_over := true, lives := 0 }, rng0)) ∧
    (0 < wallState55.lives - 1 →
      ∃ s1 f1, step_state wallState55 none rng0 = .ok (s1, f1) ∧
        s1.game_over = false ∧ s1.lives = wallState55.lives - 1 ∧
        s1.snake.length = wallState55.snake.length ∧
        s1.score = wallState55.score) :=
  C2_collision_effects (by decide) (by decide) (by decide) (by decide)
    (by decide) (Or.inl (by decide))

/-- C3: when the head advances onto the food and the grown snake fills the
board, `step_state` returns (without any food-spawn error) the win state:
`game_over = true`, score incremented, lives and food unchanged. -/
theorem C3_board_filled_win {s : GameState} {d : Option Direction}
    {f : RngS}
    (hgo : s.game_over = false)
    (hgrow : nextHead s (effDir s d) = s.food)
    (hinb : inBounds s.width s.height s.food)
    (hfood : s.food ∉ s.snake)
    (hwin : s.snake.length + 1 = s.width * s.height) :
    step_state s d f =
      .ok ({ s with
              snake := nextHead s (effDir s d) :: s.snake,
              direction := effDir s d, score := s.score + 1,
              game_over := true }, f) := by
  have hob : ¬ hitsWall s (nextHead s (effDir s d)) :=
    not_hitsWall.2 (by rwa [hgrow])
  have hb : nextHead s (effDir s d) ∉ s.snake := by rwa [hgrow]
  exact step_state_win hgo hob hgrow hb hwin

/-- C3 witness: a 2×2 board with a length-3 snake eating the last free
cell. -/
theorem C3_board_filled_win_witness :
    step_state fullState22 none rng0 =
      .ok ({ fullState22 with
              snake := nextHead fullState22 (effDir fullState22 none) ::
                fullState22.snake,
              direction := effDir fullState22 none,
              score := fullState22.score + 1, game_over := true }, rng0) :=
  C3_board_filled_win (by decide) (by decide) (by decide) (by decide)
    (by decide)

/-- C4: once `game_over` is true, `step_state` returns the input state (and
the untouched random stream), for every requested direction and every
random source. -/
theorem C4_terminal_idempotence (s : GameState) (d : Option Direction)
    (f : RngS) (hgo : s.game_over = true) :
    step_state s d f = .ok (s, f) :=
  step_state_gameover hgo

/-- C4 witness: stepping the finished board-filled state returns it
unchanged. -/
theorem C4_terminal_idempotence_witness :
    step_state winState44 (some (0, 1)) rng0 = .ok (winState44, rng0) :=
  C4_terminal_idempotence winState44 (some (0, 1)) rng0 (by decide)

/-- C5: with the game live and the next head in bounds, the self-collision
comparison body is the full snake when growing and the snake minus its tail
cell otherwise; `step_state` routes to collision handling exactly when the
next head lies in that body, and otherwise advances by prepending the head
(dropping the tail when not growing). -/
theorem C5_self_collision_body {s : GameState} {d : Option Direction}
    {f : RngS}
    (hgo : s.game_over = false) (hne : s.snake ≠ [])
    (hinb : inBounds s.width s.height (nextHead s (effDir s d))) :
    bodyFor s true = s.snake ∧
    bodyFor s false = s.snake.dropLast ∧
    (nextHead s (effDir s d) ∈
        bodyFor s (decide (nextHead s (effDir s d) = s.food)) →
      step_state s d f =
        _after_collision { s with direction := effDir s d } f) ∧
    (nextHead s (effDir s d) ∉
        bodyFor s (decide (nextHead s (effDir s d) = s.food)) →
      ∀ s1 f1, step_state s d f = .ok (s1, f1) →
        s1.snake = nextHead s (effDir s d) ::
          bodyFor s (decide (nextHead s (effDir s d) = s.food))) := by
  have hob : ¬ hitsWall s (nextHead s (effDir s d)) := not_hitsWall.2 hinb
  refine ⟨rfl, rfl, fun hbody => step_state_self hgo hob hbody, ?_⟩
  intro hbody s1 f1 hok
  by_cases hgrow : nextHead s (effDir s d) = s.food
  · have hdec : decide (nextHead s (effDir s d) = s.food) = true := by
      simp [hgrow]
    rw [hdec] at hbody ⊢
    have hbs : nextHead s (effDir s d) ∉ s.snake := hbody
    by_cases hwin : s.snake.length + 1 = s.width * s.height
    · rw [step_state_win hgo hob hgrow hbs hwin] at hok
      simp [ok_inj_state hok, bodyFor]
    · cases hsp : spawn_food (nextHead s (effDir s d) :: s.snake) s.width
          s.height f with
      | error e =>
        rw [step_state_grow_spawn_err hgo hob hgrow hbs hwin hsp] at hok
        exact absurd hok (by simp)
      | ok pr =>
        obtain ⟨p, f2⟩ := pr
        rw [step_state_grow_spawn hgo hob hgrow hbs hwin hsp] at hok
        simp [ok_inj_state hok, bodyFor]
  · have hdec : decide (nextHead s (effDir s d) = s.food) = false := by
      simp [hgrow]
    rw [hdec] at hbody ⊢
    have hbd : nextHead s (effDir s d) ∉ s.snake.dropLast := hbody
    rw [step_state_nogrow hgo hob hgrow hbd] at hok
    simp [ok_inj_state hok, bodyFor, List.dropLast_cons_of_ne_nil hne]

/-- C5 witness: the routing spec instantiated at the 10×10 growth
scenario. -/
theorem C5_self_collision_body_witness :
    bodyFor growState10 true = growState10.snake ∧
    bodyFor growState10 false = growState10.snake.dropLast ∧
    (nextHead growState10 (effDir growState10 none) ∈
        bodyFor growState10
          (decide (nextHead growState10 (effDir growState10 none) =
            growState10.food)) →
      step_state growState10 none rng0 =
        _after_collision
          { growState10 with direction := effDir growState10 none } rng0) ∧
    (nextHead growState10 (effDir growState10 none) ∉
        bodyFor growState10
          (decide (nextHead growState10 (effDir growState10 none) =
            growState10.food)) →
      ∀ s1 f1, step_state growState10 none rng0 = .ok (s1, f1) →
        s1.snake = nextHead growState10 (effDir growState10 none) ::
          bodyFor growState10
            (decide (nextHead growState10 (effDir growState10 none) =
              growState10.food))) :=
  C5_self_collision_body (by decide) (by decide) (by decide)

theorem stateOf_ok {a s1 : GameState} {g : RngS}
    (h : stateOf (.ok (a, g)) = some s1) : s1 = a := by
  simp only [stateOf, Option.some.injEq] at h
  exact h.symm

/-- C6: from any reachable live state, `step_state` never returns the
board-full error: every internal `spawn_food` call is made with a snake
strictly smaller than the board, so a free cell always exists. -/
theorem C6_no_board_full_error (s : GameState) (hr : Reachable s)
    (hgo : s.game_over = false) (d : Option Direction) (f : RngS) :
    ∃ s1 f1, step_state s d f = .ok (s1, f1) :=
  step_state_isOk d f (reachable_inv hr) hgo

/-- C6 witness: stepping the concrete reachable 4×4 initial state
succeeds. -/
theorem C6_no_board_full_error_witness :
    ∃ s1 f1, step_state startState44 none rng0 = .ok (s1, f1) :=
  C6_no_board_full_error startState44
    (Reachable.init 4 4 rng0 startState44 (by decide)) (by decide) none rng0

/-- C7 (counterexample): a non-fatal wall collision at full speed RIGHT
respawns the snake with a derived direction that is the exact 180°-reverse
of the input direction, refuting the claim that a single `step_state` can
never reverse the direction. -/
theorem C7_reversal_counterexample :
    wallState44.game_over = false ∧ wallState44.direction = (1, 0) ∧
    (stateOf (step_state wallState44 none rng0)).map
        (fun s1 => (s1.direction, s1.game_over)) =
      some ((-wallState44.direction.1, -wallState44.direction.2), false) := by
  decide

/-- C7 (amended): the returned direction is never the exact reverse of the
input direction on every path except the non-fatal collision respawn (whose
direction is derived from the respawned snake and is unconstrained): if the
step does not collide, or the collision is fatal, no reversal occurs. -/
theorem C7_no_reversal_amended {s : GameState} {d : Option Direction}
    {f : RngS} {s1 : GameState}
    (hgo : s.game_over = false) (h0 : s.direction ≠ (0, 0))
    (hpath : (¬ hitsWall s (nextHead s (effDir s d)) ∧
        nextHead s (effDir s d) ∉
          bodyFor s (decide (nextHead s (effDir s d) = s.food))) ∨
      s.lives - 1 ≤ 0)
    (hok : stateOf (step_state s d f) = some s1) :
    s1.direction ≠ (-s.direction.1, -s.direction.2) := by
  have hdir : s1.direction = effDir s d := by
    by_cases hob : hitsWall s (nextHead s (effDir s d))
    · rcases hpath with ⟨hob2, -⟩ | hfatal
      · exact absurd hob hob2
      · rw [step_state_wall hgo hob, after_collision_fatal
          (s := { s with direction := effDir s d }) hfatal] at hok
        rw [stateOf_ok hok]
    · by_cases hbody : nextHead s (effDir s d) ∈
          bodyFor s (decide (nextHead s (effDir s d) = s.food))
      · rcases hpath with ⟨-, hb2⟩ | hfatal
        · exact absurd hbody hb2
        · rw [step_state_self hgo hob hbody, after_collision_fatal
            (s := { s with direction := effDir s d }) hfatal] at hok
          rw [stateOf_ok hok]
      · by_cases hgrow : nextHead s (effDir s d) = s.food
        · have hbs : nextHead s (effDir s d) ∉ s.snake := by
            intro hmem
            apply hbody
            simpa [bodyFor, hgrow] using hmem
          by_cases hwin : s.snake.length + 1 = s.width * s.height
          · rw [step_state_win hgo hob hgrow hbs hwin] at hok
            rw [stateOf_ok hok]
          · cases hsp : spawn_food (nextHead s (effDir s d) :: s.snake)
                s.width s.height f with
            | error e =>
              rw [step_state_grow_spawn_err hgo hob hgrow hbs hwin hsp]
                at hok
              simp [stateOf] at hok
            | ok pr =>
              obtain ⟨p, f2⟩ := pr
              rw [step_state_grow_spawn hgo hob hgrow hbs hwin hsp] at hok
              rw [stateOf_ok hok]
        · have hbd : nextHead s (effDir s d) ∉ s.snake.dropLast := by
            intro hmem
            apply hbody
            simpa [bodyFor, hgrow] using hmem
          rw [step_state_nogrow hgo hob hgrow hbd] at hok
          rw [stateOf_ok hok]
  rw [hdir]
  exact effDir_ne_reverse d h0

/-- The state the 10×10 growth scenario steps to. -/
def grownState10 : GameState :=
  ⟨10, 10, [(4, 3), (3, 3), (2, 3), (1, 3)], (0, 0), (1, 0), 1, false, 3, 3⟩

/-- C7 witness: a collision-free growth step keeps the no-reversal
guarantee at a concrete state. -/
theorem C7_no_reversal_amended_witness :
    grownState10.direction ≠
      (-growState10.direction.1, -growState10.direction.2) :=
  C7_no_reversal_amended (d := none) (f := rng0) (by decide) (by decide)
    (Or.inl ⟨by decide, by decide⟩) (by decide)

/-- C8 (counterexample): two legal random sources that demand different
members of the four axis directions at the extension call of
`_respawn_snake 4 4 2` (index 0, selecting `(1, 0)`, versus index 2,
selecting `(0, 1)`) produce the same snake, extended in direction `(1, 0)`
both times: the extension direction is not drawn from the source. -/
theorem C8_random_direction_counterexample :
    (_respawn_snake 4 4 2 rngA).1 = [(1, 1), (2, 1)] ∧
    (_respawn_snake 4 4 2 rngB).1 = [(1, 1), (2, 1)] ∧
    allDirections.getD (rngA 2 % allDirections.length) (0, 0) = (1, 0) ∧
    allDirections.getD (rngB 2 % allDirections.length) (0, 0) = (0, 1) := by
  decide

/-- C8 (amended): each extension step of `_respawn_snake` does invoke the
random source once, but on the singleton sequence `[directions]`, so the
chosen element is the fixed list `[(1,0), (-1,0), (0,1), (0,-1)]` for every
random source, and the extension tries the four directions in that fixed
priority order: for every continuation stream `f`, the respawn from start
cell `(1, 1)` on a 4×4 board extends RIGHT. -/
theorem C8_fixed_priority_amended (f : RngS) :
    (choiceL f [allDirections] ([] : List Direction)).1 = allDirections ∧
    (_respawn_snake 4 4 2 (fun n => if n < 2 then 1 else f n)).1 =
      [(1, 1), (2, 1)] := by
  constructor
  · simp [choiceL, Nat.mod_one]
  · simp [_respawn_snake, respawnGo, choiceL, rangeInt, tryDirs,
      Nat.mod_one, allDirections]

/-- C8 witness: the fixed-priority fact at the index-0 source. -/
theorem C8_fixed_priority_amended_witness :
    (choiceL rng0 [allDirections] ([] : List Direction)).1 = allDirections ∧
    (_respawn_snake 4 4 2 (fun n => if n < 2 then 1 else rng0 n)).1 =
      [(1, 1), (2, 1)] :=
  C8_fixed_priority_amended rng0

/-- C9: `create_initial_state` raises `InvalidBoardError` exactly when a
dimension is below 4; otherwise it succeeds with the centred 3-segment
snake, direction RIGHT, score 0, `lives = max_lives = 3` and
`game_over = false`.  The Python defaults are `width = height = 20`, so the
no-argument call is the `w = h = 20` instance. -/
theorem C9_create_spec (w h : Nat) (f : RngS) :
    (w < 4 ∨ h < 4 → create_initial_state w h f = .error .invalidBoard) ∧
    (create_initial_state w h f = .error .invalidBoard → w < 4 ∨ h < 4) ∧
    (4 ≤ w → 4 ≤ h →
      ∃ s f1, create_initial_state w h f = .ok (s, f1) ∧
        s.width = w ∧ s.height = h ∧
        s.snake = [(((w / 2 : Nat) : Int), ((h / 2 : Nat) : Int)),
          (((w / 2 : Nat) : Int) - 1, ((h / 2 : Nat) : Int)),
          (((w / 2 : Nat) : Int) - 2, ((h / 2 : Nat) : Int))] ∧
        s.direction = RIGHT ∧ s.score = 0 ∧ s.lives = 3 ∧
        s.max_lives = 3 ∧ s.game_over = false) := by
  have hok : ∀ (hw : 4 ≤ w) (hh : 4 ≤ h),
      ∃ s f1, create_initial_state w h f = .ok (s, f1) ∧
        s.width = w ∧ s.height = h ∧
        s.snake = [(((w / 2 : Nat) : Int), ((h / 2 : Nat) : Int)),
          (((w / 2 : Nat) : Int) - 1, ((h / 2 : Nat) : Int)),
          (((w / 2 : Nat) : Int) - 2, ((h / 2 : Nat) : Int))] ∧
        s.direction = RIGHT ∧ s.score = 0 ∧ s.lives = 3 ∧
        s.max_lives = 3 ∧ s.game_over = false := by
    intro hw hh
    have hb : ¬ (w < 4 ∨ h < 4) := by omega
    obtain ⟨hne, hnd, hib, hlen3⟩ := initial_snake_facts hw hh
    have hwh : 16 ≤ w * h := Nat.mul_le_mul hw hh
    obtain ⟨p, f1, hsp⟩ :
        ∃ p f1, spawn_food (_initial_snake w h) w h f = .ok (p, f1) :=
      spawn_food_isOk f (by rw [hlen3]; omega)
    refine ⟨⟨w, h, _initial_snake w h, p, RIGHT, 0, false, 3, 3⟩, f1, ?_,
      rfl, rfl, rfl, rfl, rfl, rfl, rfl, rfl⟩
    simp only [create_initial_state, if_neg hb, hsp]
  refine ⟨?_, ?_, hok⟩
  · intro hb
    simp [create_initial_state, hb]
  · intro herr
    by_contra hb
    obtain ⟨s, f1, hce, -⟩ := hok (by omega) (by omega)
    rw [hce] at herr
    exact absurd herr (by simp)

/-- C9 witness: a 3-wide board is rejected; the default-sized 20×20 board
is created with all the specified fields. -/
theorem C9_create_spec_witness :
    create_initial_state 3 20 rng0 = .error .invalidBoard ∧
    (∃ s f1, create_initial_state 20 20 rng0 = .ok (s, f1) ∧
      s.width = 20 ∧ s.height = 20 ∧
      s.snake = [(((20 / 2 : Nat) : Int), ((20 / 2 : Nat) : Int)),
        (((20 / 2 : Nat) : Int) - 1, ((20 / 2 : Nat) : Int)),
        (((20 / 2 : Nat) : Int) - 2, ((20 / 2 : Nat) : Int))] ∧
      s.direction = RIGHT ∧ s.score = 0 ∧ s.lives = 3 ∧
      s.max_lives = 3 ∧ s.game_over = false) :=
  ⟨(C9_create_spec 3 20 rng0).1 (Or.inl (by omega)),
   (C9_create_spec 20 20 rng0).2.2 (by omega) (by omega)⟩

/-- C10: for any legal random source (modelled by an arbitrary index
stream), `_respawn_snake` on a non-degenerate board with a positive
requested length returns a snake with pairwise-distinct on-board points
whose length is exactly `min length (width*height)` — in particular the
early-truncation fallback never fires when the requested length fits the
board. -/
theorem C10_respawn_well_formed (width height length : Nat) (f : RngS)
    (hw : 1 ≤ width) (hh : 1 ≤ height) (hl : 1 ≤ length) :
    (_respawn_snake width height length f).1.Nodup ∧
      (∀ p ∈ (_respawn_snake width height length f).1,
        inBounds width height p) ∧
      (_respawn_snake width height length f).1.length =
        min length (width * height) := by
  obtain ⟨a, b, c, -⟩ := respawn_snake_spec width height length f hw hh hl
  exact ⟨a, b, c⟩

/-- C10 witness: the respawn of a length-3 snake on a 4×4 board with the
index-0 source. -/
theorem C10_respawn_well_formed_witness :
    (_respawn_snake 4 4 3 rng0).1.Nodup ∧
      (∀ p ∈ (_respawn_snake 4 4 3 rng0).1, inBounds 4 4 p) ∧
      (_respawn_snake 4 4 3 rng0).1.length = min 3 (4 * 4) :=
  C10_respawn_well_formed 4 4 3 rng0 (by omega) (by omega) (by omega)
